import Mathlib

/-!
Verification development for the video-chapter-splitter repository.

The Python source (src/utils.py and src/video_chapter_splitter.py) is embedded
shallowly: Python strings become `List Char`, Python floats become exact
rationals `ℚ` (the source never exercises float-precision-sensitive paths
beyond millisecond tolerances, which the claims state explicitly), fallible
functions return `Except`/`Option`.  Machine-float decimal formatting is
modelled as exact decimal rounding (round half up); for actual binary doubles
exact half-way ties at a thousandth are impossible, so the tie-break is
unobservable on real inputs.
-/

namespace VCS

/-- ASCII/latin whitespace as recognised by Python `str.strip` /
`str.split()` on the inputs this program handles. -/
def isWs (c : Char) : Bool :=
  c = ' ' || c = '\t' || c = '\n' || c = '\r'

/-- Python `str.strip()`: drop whitespace from both ends. -/
def pyStrip (s : List Char) : List Char :=
  ((s.dropWhile isWs).reverse.dropWhile isWs).reverse

/-- Python `str.split(sep)` for a one-character separator: keeps empty
fields, `""` splits to `[""]`. -/
def splitOnChar (sep : Char) : List Char → List (List Char)
  | [] => [[]]
  | c :: rest =>
    match splitOnChar sep rest with
    | [] => [[]]
    | g :: gs => if c = sep then [] :: g :: gs else (c :: g) :: gs

/-- Does the second list start with the first one? -/
def leadsWith : List Char → List Char → Bool
  | [], _ => true
  | _ :: _, [] => false
  | a :: as, b :: bs => a = b && leadsWith as bs

/-- Python `sub in s` substring containment. -/
def listContainsSub (p : List Char) : List Char → Bool
  | [] => leadsWith p []
  | c :: rest => leadsWith p (c :: rest) || listContainsSub p rest

/-- Python `str.split(maxsplit=1)` (split on whitespace runs, at most once):
leading whitespace skipped, first token, then the remainder with its leading
whitespace removed. -/
def pySplitMax1 (s : List Char) : List (List Char) :=
  match s.dropWhile isWs with
  | [] => []
  | c :: rest =>
    let tok := (c :: rest).takeWhile (fun ch => !isWs ch)
    let rem := ((c :: rest).dropWhile (fun ch => !isWs ch)).dropWhile isWs
    if rem = [] then [tok] else [tok, rem]

/-- Numeric value of one ASCII digit character. -/
def charVal (c : Char) : ℕ := c.toNat - 48

/-- Value of a digit string, most significant digit first. -/
def digitsVal (s : List Char) : ℕ :=
  s.foldl (fun a c => 10 * a + charVal c) 0

/-- Nonempty, all ASCII digits: Python `str.isdigit()` restricted to the
ASCII inputs this program produces and consumes. -/
def isDigitStr (s : List Char) : Bool :=
  decide (s ≠ []) && s.all Char.isDigit

/-- One decimal digit as a character. -/
def digitChar (d : ℕ) : Char := Char.ofNat (48 + d)

/-- Decimal rendering of a natural number (fuel-based so that the kernel can
evaluate it). -/
def natReprAux : ℕ → ℕ → List Char
  | 0, _ => []
  | fuel + 1, n =>
    if n < 10 then [digitChar n]
    else natReprAux fuel (n / 10) ++ [digitChar (n % 10)]

/-- Decimal digits of `n`, most significant first (e.g. `natRepr 105 = "105"`). -/
def natRepr (n : ℕ) : List Char := natReprAux (n + 1) n

/-- Left-pad a character list with zeros up to width `w`. -/
def zeroPadTo (w : ℕ) (l : List Char) : List Char :=
  List.replicate (w - l.length) '0' ++ l

/-- Python `f"{n:0wd}"`: zero-padded fixed-width decimal, sign first. -/
def pyFmtD (w : ℕ) (n : ℤ) : List Char :=
  if n < 0 then '-' :: zeroPadTo (w - 1) (natRepr n.natAbs)
  else zeroPadTo w (natRepr n.natAbs)

/-- Round a nonnegative rational to the nearest integer count of
thousandths (half rounds up; unobservable tie-break for binary doubles). -/
def roundMilli (x : ℚ) : ℤ := ⌊x * 1000 + 1 / 2⌋

/-- Python `f"{x:06.3f}"` for the nonnegative case, magnitude rendering. -/
def pyFmtF63core (x : ℚ) : List Char :=
  let t : ℕ := (roundMilli x).toNat
  zeroPadTo 6 (natRepr (t / 1000) ++ '.' :: zeroPadTo 3 (natRepr (t % 1000)))

/-- Python `f"{x:06.3f}"`. -/
def pyFmtF63 (x : ℚ) : List Char :=
  if x < 0 then '-' :: pyFmtF63core (-x) else pyFmtF63core x

/-- Python float `%`: `a - m * ⌊a / m⌋` (the divisors used by the source are
the positive constants 3600 and 60). -/
def pyMod (a m : ℚ) : ℚ := a - m * ⌊a / m⌋

/-- Python `int()` truncation toward zero. -/
def pyTrunc (q : ℚ) : ℤ := if q < 0 then -⌊-q⌋ else ⌊q⌋

/-- Magnitude part of the `str(float)` rendering: integer digits, a dot,
then fractional digits. -/
def pyNumStrCore (x : ℚ) : List Char :=
  natRepr ⌊x⌋.toNat ++ '.' :: zeroPadTo 3 (natRepr (roundMilli (x - ⌊x⌋)).toNat)

/-- Python `str(float)` as used for ffmpeg seek/duration arguments: a sign
followed by a decimal rendering.  Only the sign/leading-digit shape of this
rendering is relied on by any theorem; the exact shortest-round-trip digit
selection of CPython is abstracted to millisecond precision. -/
def pyNumStr (q : ℚ) : List Char :=
  if q < 0 then '-' :: pyNumStrCore (-q) else pyNumStrCore q

/-! ## TimeCodec: utils.time_to_seconds and utils.seconds_to_time_str -/

/-- Match of the seconds group `\d+(?:\.\d+)?`: leading digits, optional
dot followed by digits. -/
def secGroupMatch (s : List Char) : Bool :=
  let ip := s.takeWhile Char.isDigit
  let rest := s.dropWhile Char.isDigit
  decide (ip ≠ []) &&
    (decide (rest = []) ||
      (match rest with
       | c :: fr => c = '.' && isDigitStr fr
       | [] => false))

/-- Rational value of a matched seconds group. -/
def secGroupVal (s : List Char) : ℚ :=
  let ip := s.takeWhile Char.isDigit
  let rest := s.dropWhile Char.isDigit
  match rest with
  | c :: fr =>
    if c = '.' then (digitsVal ip : ℚ) + (digitsVal fr : ℚ) / 10 ^ fr.length
    else (digitsVal ip : ℚ)
  | [] => (digitsVal ip : ℚ)

/-- The strict pattern of `time_to_seconds`:
`^(?:(\d+):)?(\d+):(\d+(?:\.\d+)?)$`.  Because the three groups cannot
contain a colon, matching is equivalent to splitting on `:` into two or
three appropriately-shaped fields.  Returns the (hours, minutes, seconds)
group values; hours default to 0 when the group is absent. -/
def strictMatch (t : List Char) : Option (ℚ × ℚ × ℚ) :=
  match splitOnChar ':' t with
  | [m, s] =>
    if isDigitStr m && secGroupMatch s then some (0, (digitsVal m : ℚ), secGroupVal s)
    else none
  | [h, m, s] =>
    if isDigitStr h && isDigitStr m && secGroupMatch s then
      some ((digitsVal h : ℚ), (digitsVal m : ℚ), secGroupVal s)
    else none
  | _ => none

/-- Python `float(str)` on a sign plus decimal literal (the forms the
fallback path of `time_to_seconds` actually receives; exponent, infinity
and nan spellings are not modelled). -/
def pyFloatOfStr (s : List Char) : Option ℚ :=
  let t := pyStrip s
  let su : Bool × List Char :=
    match t with
    | [] => (false, [])
    | c :: r => if c = '-' then (true, r) else if c = '+' then (false, r) else (false, c :: r)
  let ip := su.2.takeWhile Char.isDigit
  let r1 := su.2.dropWhile Char.isDigit
  let v :=
    match r1 with
    | [] => if ip = [] then none else some ((digitsVal ip : ℚ))
    | c :: fr =>
      if c = '.' then
        let fp := fr.takeWhile Char.isDigit
        let r2 := fr.dropWhile Char.isDigit
        if r2 = [] && (decide (ip ≠ []) || decide (fp ≠ [])) then
          some ((digitsVal ip : ℚ) + (digitsVal fp : ℚ) / 10 ^ fp.length)
        else none
      else none
  v.map (fun x => if su.1 then -x else x)

/-- The three `ValueError` sites of `time_to_seconds`. -/
inductive TimeErr where
  | badFormat
  | badMinutes
  | badSeconds
deriving DecidableEq, Repr

instance {α β : Type} [DecidableEq α] [DecidableEq β] : DecidableEq (Except α β) := fun a b =>
  match a, b with
  | Except.ok x, Except.ok y =>
    if h : x = y then Decidable.isTrue (h ▸ rfl)
    else Decidable.isFalse (fun hh => h (Except.ok.inj hh))
  | Except.error x, Except.error y =>
    if h : x = y then Decidable.isTrue (h ▸ rfl)
    else Decidable.isFalse (fun hh => h (Except.error.inj hh))
  | Except.ok _, Except.error _ => Decidable.isFalse (fun hh => Except.noConfusion hh)
  | Except.error _, Except.ok _ => Decidable.isFalse (fun hh => Except.noConfusion hh)

/-- `utils.time_to_seconds`: strict pattern first (with minute/second range
checks), otherwise the lenient colon-split fallback on exactly three
float-parsable parts, otherwise a `ValueError`. -/
def timeToSeconds (s : List Char) : Except TimeErr ℚ :=
  let t := pyStrip s
  match strictMatch t with
  | some hms =>
    if 60 ≤ hms.2.1 then Except.error TimeErr.badMinutes
    else if 60 ≤ hms.2.2 then Except.error TimeErr.badSeconds
    else Except.ok (hms.1 * 3600 + hms.2.1 * 60 + hms.2.2)
  | none =>
    match splitOnChar ':' t with
    | [a, b, c] =>
      match pyFloatOfStr a, pyFloatOfStr b, pyFloatOfStr c with
      | some h, some m, some sec => Except.ok (h * 3600 + m * 60 + sec)
      | _, _, _ => Except.error TimeErr.badFormat
    | _ => Except.error TimeErr.badFormat
  -- the fallback in the source is attempted only when the regex fails,
  -- and raises the generic format error when it does not apply

/-- `utils.seconds_to_time_str`: `HH:MM:SS` zero-padded, with a
3-decimal-digit seconds field when `include_ms` is set. -/
def secondsToTimeStr (x : ℚ) (includeMs : Bool) : List Char :=
  let hours : ℤ := ⌊x / 3600⌋
  let minutes : ℤ := ⌊pyMod x 3600 / 60⌋
  let secs : ℚ := pyMod x 60
  pyFmtD 2 hours ++ ':' :: pyFmtD 2 minutes ++ ':' ::
    (if includeMs then pyFmtF63 secs else pyFmtD 2 (pyTrunc secs))

/-! ## ChapterResolver: parse_chapter_file and _parse_all_chapters -/

/-- One parsed line of the annotation file (the dict pushed onto
`all_entries` by both parsers). -/
structure ChapterEntry where
  time : List Char
  title : List Char
  excluded : Bool
deriving DecidableEq, Repr

/-- `title.startswith("--")`. -/
def titleExcluded (title : List Char) : Bool :=
  match title with
  | a :: b :: _ => a = '-' && b = '-'
  | _ => false

/-- Parse one stripped line: split into at most two whitespace-separated
fields; lines with fewer than two fields are silently skipped. -/
def parseLineEntry (line : List Char) : Option ChapterEntry :=
  match pySplitMax1 line with
  | [t, ti] => some ⟨t, ti, titleExcluded ti⟩
  | _ => none

/-- The line-reading prelude shared by both parsers:
`[line.strip() for line in f if line.strip()]`. -/
def prepLines (raw : List (List Char)) : List (List Char) :=
  (raw.map pyStrip).filter (fun l => decide (l ≠ []))

/-- `all_entries` as built by both parsers. -/
def parseEntries (raw : List (List Char)) : List ChapterEntry :=
  (prepLines raw).filterMap parseLineEntry

/-- The interval-construction loop of `parse_chapter_file`: skip excluded
entries; the end time of entry `i` is the time of entry `i+1` (excluded
entries included), or the formatted total duration for the last entry. -/
def resolveChapters : List ChapterEntry → List Char → List (List Char × List Char × List Char)
  | [], _ => []
  | e :: rest, fullDur =>
    (if e.excluded then [] else
      [(e.time, (match rest with | [] => fullDur | e2 :: _ => e2.time), e.title)]) ++
      resolveChapters rest fullDur

/-- The interval-construction loop of `_parse_all_chapters`: same boundary
rule but every entry is emitted, tagged with its exclusion flag. -/
def resolveAllChapters : List ChapterEntry → List Char →
    List (List Char × List Char × List Char × Bool)
  | [], _ => []
  | e :: rest, fullDur =>
    (e.time, (match rest with | [] => fullDur | e2 :: _ => e2.time), e.title, e.excluded) ::
      resolveAllChapters rest fullDur

/-- `parse_chapter_file`, from the raw annotation lines and the probed
video duration. -/
def parseChapterFile (raw : List (List Char)) (videoDuration : ℚ) :
    List (List Char × List Char × List Char) :=
  resolveChapters (parseEntries raw) (secondsToTimeStr videoDuration false)

/-- `_parse_all_chapters`, from the raw annotation lines and the probed
video duration. -/
def parseAllChapters (raw : List (List Char)) (videoDuration : ℚ) :
    List (List Char × List Char × List Char × Bool) :=
  resolveAllChapters (parseEntries raw) (secondsToTimeStr videoDuration false)

/-! ## CommandPlanner: the ffmpeg argument list of split_chapter /
split_chapter_with_progress (the two methods build identical lists) -/

/-- A resolved hardware encoder entry of the static table. -/
structure GpuEncoder where
  encoder : List Char
  params : List (List Char)
deriving DecidableEq, Repr

/-- The splitter configuration fields consulted when synthesizing a split
command. -/
structure SplitterConfig where
  videoCodec : List Char
  audioCodec : List Char
  audioBitrate : ℕ
  accurate : Bool
  gpuEncoder : Option GpuEncoder
deriving DecidableEq, Repr

/-- `f"{n}k"` bitrate argument. -/
def kArg (n : ℕ) : List Char := natRepr n ++ ['k']

/-- The video-codec argument block (the if/elif chain of both split
methods). -/
def videoCodecArgs (cfg : SplitterConfig) (videoBitrate : ℕ) : List (List Char) :=
  match cfg.gpuEncoder with
  | some g =>
    if cfg.accurate || decide (cfg.videoCodec ≠ ("copy").toList) then
      ("-c:v").toList :: g.encoder :: g.params ++ [("-b:v").toList, kArg videoBitrate]
    else
      -- gpu encoder present but accurate is off and the codec is copy:
      -- the elif chain falls through to the plain copy branch
      [("-c:v").toList, ("copy").toList]
  | none =>
    if cfg.accurate && decide (cfg.videoCodec = ("copy").toList) then
      [("-c:v").toList, ("libx265").toList, ("-crf").toList, ("23").toList,
        ("-preset").toList, ("medium").toList]
    else if cfg.videoCodec = ("copy").toList then
      [("-c:v").toList, ("copy").toList]
    else
      [("-c:v").toList, cfg.videoCodec, ("-b:v").toList, kArg videoBitrate]

/-- The audio-codec argument block. -/
def audioCodecArgs (cfg : SplitterConfig) : List (List Char) :=
  if cfg.audioCodec = ("copy").toList then [("-c:a").toList, ("copy").toList]
  else [("-c:a").toList, cfg.audioCodec, ("-b:a").toList, kArg cfg.audioBitrate]

/-- Everything of the split command before the optional duration argument
and the output file. -/
def buildSplitCmdPre (cfg : SplitterConfig) (inputFile : List Char)
    (startSeconds : ℚ) (videoBitrate : ℕ) : List (List Char) :=
  [("ffmpeg").toList, ("-y").toList, ("-hide_banner").toList,
    ("-loglevel").toList, ("error").toList, ("-progress").toList, ("pipe:1").toList] ++
  (if cfg.accurate then [("-i").toList, inputFile, ("-ss").toList, pyNumStr startSeconds]
   else [("-ss").toList, pyNumStr startSeconds, ("-i").toList, inputFile]) ++
  videoCodecArgs cfg videoBitrate ++
  audioCodecArgs cfg ++
  [("-movflags").toList, ("+faststart").toList]

/-- The complete ffmpeg argument list synthesized by `split_chapter` and
`split_chapter_with_progress`: the `-t` duration argument is appended only
when the duration is strictly positive, then the output file. -/
def buildSplitCommand (cfg : SplitterConfig) (inputFile outputFile : List Char)
    (startSeconds duration : ℚ) (videoBitrate : ℕ) : List (List Char) :=
  buildSplitCmdPre cfg inputFile startSeconds videoBitrate ++
    (if 0 < duration then [("-t").toList, pyNumStr duration] else []) ++
    [outputFile]

/-- The external commands a call to `split_chapter(_with_progress)` spawns:
unconditionally the one synthesized ffmpeg command (there is no rejection
branch for non-positive durations). -/
def splitChapterSpawns (cfg : SplitterConfig) (inputFile outputFile : List Char)
    (startSeconds duration : ℚ) (videoBitrate : ℕ) : List (List (List Char)) :=
  [buildSplitCommand cfg inputFile outputFile startSeconds duration videoBitrate]

/-- Does the argument list contain `a` immediately followed by `b`? -/
def hasAdjPair (a b : List Char) : List (List Char) → Bool
  | [] => false
  | [_] => false
  | x :: y :: rest =>
    (decide (x = a) && decide (y = b)) || hasAdjPair a b (y :: rest)

/-! ## TranscodeSupervisor: progress aggregation and the split_video loop -/

/-- `utils.parse_progress_output`: when the line contains `out_time_ms=`,
take the text after the first `=`, strip it, and when it is all digits
convert microseconds to seconds; otherwise (or on any failure) `None`. -/
def parseProgressOutput (line : List Char) : Option ℚ :=
  if listContainsSub (("out_time_ms=").toList) line then
    match (splitOnChar '=' line).get? 1 with
    | some seg =>
      if isDigitStr (pyStrip seg) then
        some ((digitsVal (pyStrip seg) : ℚ) / 1000000)
      else none
    | none => none
  else none

/-- One iteration of the progress-reading loop of
`split_chapter_with_progress`: a line carrying an offset sets
`pbar.n = elapsed_total + min(current_time, duration)`; any other line
leaves the counter unchanged. -/
def progressStep (elapsedTotal duration : ℚ) (pbarN : ℚ) (line : List Char) : ℚ :=
  match parseProgressOutput line with
  | some t => elapsedTotal + min t duration
  | none => pbarN

/-- The successive values taken by `pbar.n` while one chapter's progress
lines are consumed. -/
def chapterTrace (elapsedTotal duration : ℚ) (pbarN : ℚ) :
    List (List Char) → List ℚ
  | [] => []
  | l :: ls =>
    let p := progressStep elapsedTotal duration pbarN l
    p :: chapterTrace elapsedTotal duration p ls

/-- The successive values taken by `pbar.n` over a whole `split_video`
run: per chapter, the in-chapter updates, then the post-chapter baseline
assignment `elapsed_total += duration; pbar.n = elapsed_total`. -/
def runTrace (elapsedTotal pbarN : ℚ) : List (ℚ × List (List Char)) → List ℚ
  | [] => []
  | (d, ls) :: rest =>
    let ct := chapterTrace elapsedTotal d pbarN ls
    let e2 := elapsedTotal + d
    ct ++ e2 :: runTrace e2 e2 rest

/-- A list of rationals is non-decreasing in adjacent order. -/
def nondec : List ℚ → Bool
  | [] => true
  | [_] => true
  | a :: b :: rest => decide (a ≤ b) && nondec (b :: rest)

/-- External-process spawn events of a `split_video` run, in order. -/
inductive ExtEvent where
  | durationQuery
  | bitrateQuery
  | ffmpegRun (idx : ℕ)
deriving DecidableEq, Repr

/-- The fatal error of `split_video` (`ValueError` on an empty resolved
chapter list). -/
inductive RunErr where
  | noChaptersFound
  | invalidTimestamp
deriving DecidableEq, Repr

/-- Does `time_to_seconds` succeed on this string (no `ValueError`)? -/
def timeParses (s : List Char) : Bool :=
  match timeToSeconds s with
  | Except.ok _ => true
  | Except.error _ => false

/-- The per-chapter loop of `split_video`: every chapter spawns its ffmpeg
process; a non-zero exit records a failure message carrying the 1-based
chapter index and title, and the loop continues.  Returns the spawn events
and the failure reports, in order. -/
def splitLoop (exits : ℕ → Bool) :
    ℕ → List (List Char × List Char × List Char) → List ExtEvent × List (ℕ × List Char)
  | _, [] => ([], [])
  | i, ch :: rest =>
    let r := splitLoop exits (i + 1) rest
    (ExtEvent.ffmpegRun i :: r.1,
      (if exits i then [] else [(i + 1, ch.2.2)]) ++ r.2)

/-- Outcome of a modelled `split_video` run. -/
structure SplitRun where
  events : List ExtEvent
  result : Except RunErr ℕ
  failures : List (ℕ × List Char)
deriving Repr

/-- `split_video`, modelled at the level of its external effects:
the ffprobe duration query runs first (inside `parse_chapter_file`); an
empty resolved chapter list aborts with the fatal error; otherwise the
bitrate probe runs when no bitrate was configured, then the total-duration
sum `sum(time_to_seconds(end) - time_to_seconds(start) ...)` re-parses
every chapter boundary and propagates its `ValueError` on the first
malformed timestamp (after the probes, before any ffmpeg spawn); when all
boundaries parse, every chapter is attempted in order regardless of
earlier failures.  `exits i` is the exit status of chapter `i`'s ffmpeg
process; the result counts the attempted chapters. -/
def splitVideoModel (raw : List (List Char)) (videoDuration : ℚ)
    (needBitrateProbe : Bool) (exits : ℕ → Bool) : SplitRun :=
  let chapters := parseChapterFile raw videoDuration
  if chapters = [] then
    { events := [ExtEvent.durationQuery]
      result := Except.error RunErr.noChaptersFound
      failures := [] }
  else if chapters.all (fun c => timeParses c.1 && timeParses c.2.1) then
    let r := splitLoop exits 0 chapters
    { events := ExtEvent.durationQuery ::
        ((if needBitrateProbe then [ExtEvent.bitrateQuery] else []) ++ r.1)
      result := Except.ok chapters.length
      failures := r.2 }
  else
    { events := ExtEvent.durationQuery ::
        (if needBitrateProbe then [ExtEvent.bitrateQuery] else [])
      result := Except.error RunErr.invalidTimestamp
      failures := [] }

/-! # Theorems -/

/-- C1: resolving intervals emits one interval per non-excluded entry; its
start is that entry's timestamp, its end is the timestamp of the next entry
in file order (excluded entries included; the last entry's end is the
formatted total duration); excluded entries bound their predecessor but are
never themselves emitted. -/
theorem resolveChapters_kept_entries_next_boundary (entries : List ChapterEntry)
    (fullDur : List Char) :
    resolveChapters entries fullDur =
      (entries.zip (entries.tail.map ChapterEntry.time ++ [fullDur])).filterMap
        (fun p => if p.1.excluded then none else some (p.1.time, p.2, p.1.title)) := by
  induction entries with
  | nil => rfl
  | cons e rest ih =>
    cases rest with
    | nil => cases h : e.excluded <;> simp [resolveChapters, h]
    | cons e2 r2 =>
      cases h : e.excluded <;> simp [resolveChapters, h] <;>
        simpa [resolveChapters] using ih

/-- Helper for C10: the split-mode interval loop equals the concat-mode
loop filtered to non-excluded rows and projected to (start, end, title). -/
theorem resolveChapters_eq_filter_resolveAll (entries : List ChapterEntry)
    (fullDur : List Char) :
    resolveChapters entries fullDur =
      (resolveAllChapters entries fullDur).filterMap
        (fun q => if q.2.2.2 then none else some (q.1, q.2.1, q.2.2.1)) := by
  induction entries with
  | nil => rfl
  | cons e rest ih =>
    cases h : e.excluded <;>
      simp [resolveChapters, resolveAllChapters, h, ih]

/-- C10: for every annotation file and total duration,
`parse_chapter_file` equals `_parse_all_chapters` restricted to
non-excluded entries and projected to (start, end, title). -/
theorem parseChapterFile_refines_parseAllChapters (raw : List (List Char))
    (videoDuration : ℚ) :
    parseChapterFile raw videoDuration =
      (parseAllChapters raw videoDuration).filterMap
        (fun q => if q.2.2.2 then none else some (q.1, q.2.1, q.2.2.1)) :=
  resolveChapters_eq_filter_resolveAll (parseEntries raw)
    (secondsToTimeStr videoDuration false)

/-- C3 counterexample: on an empty annotation file the run does fail with
the no-chapters error, but only after the ffprobe duration query has
already spawned an external process — the event list at failure is not
empty. -/
theorem splitVideo_empty_fails_after_probe_cex :
    (splitVideoModel [] 600 true (fun _ => true)).result =
      Except.error RunErr.noChaptersFound ∧
    (splitVideoModel [] 600 true (fun _ => true)).events ≠ [] := by
  constructor
  · with_unfolding_all rfl
  · have h : (splitVideoModel [] 600 true (fun _ => true)).events =
        [ExtEvent.durationQuery] := by with_unfolding_all rfl
    rw [h]
    simp

/-- C3 amended: when the resolved interval sequence is empty the run fails
with the no-chapters error before any ffmpeg transcode process (and before
the bitrate probe) is spawned; the only external process already spawned is
the ffprobe duration query. -/
theorem splitVideo_empty_fails_before_transcode (raw : List (List Char))
    (videoDuration : ℚ) (needBitrateProbe : Bool) (exits : ℕ → Bool)
    (h : parseChapterFile raw videoDuration = []) :
    (splitVideoModel raw videoDuration needBitrateProbe exits).result =
      Except.error RunErr.noChaptersFound ∧
    (splitVideoModel raw videoDuration needBitrateProbe exits).events =
      [ExtEvent.durationQuery] := by
  simp [splitVideoModel, h]

/-- Witness for the amended C3 at a concrete empty annotation file. -/
theorem splitVideo_empty_fails_before_transcode_witness :
    parseChapterFile [] 600 = [] ∧
    (splitVideoModel [] 600 false (fun _ => false)).result =
      Except.error RunErr.noChaptersFound ∧
    (splitVideoModel [] 600 false (fun _ => false)).events =
      [ExtEvent.durationQuery] := by
  have h : parseChapterFile [] 600 = [] := by with_unfolding_all rfl
  exact ⟨h, splitVideo_empty_fails_before_transcode [] 600 false (fun _ => false) h⟩

/-- C4 counterexample: an interval of duration 0 (≤ 0) is not rejected —
the split step still spawns its ffmpeg extraction command. -/
theorem splitChapter_zero_duration_still_runs_cex :
    (0 : ℚ) ≤ 0 ∧
    splitChapterSpawns ⟨("copy").toList, ("copy").toList, 192, true, none⟩
      (("in.mp4").toList) (("out.mp4").toList) 0 0 5000 ≠ [] := by
  refine ⟨le_refl 0, ?_⟩
  simp [splitChapterSpawns]

/-- C4 amended: a non-positive duration is not rejected at
interval-consumption time; the split step still synthesizes and spawns
exactly its one ffmpeg command, merely omitting the `-t` duration
argument. -/
theorem splitChapter_nonpositive_duration_omits_t (cfg : SplitterConfig)
    (inputFile outputFile : List Char) (startSeconds duration : ℚ)
    (videoBitrate : ℕ) (h : duration ≤ 0) :
    splitChapterSpawns cfg inputFile outputFile startSeconds duration videoBitrate =
      [buildSplitCmdPre cfg inputFile startSeconds videoBitrate ++ [outputFile]] := by
  simp [splitChapterSpawns, buildSplitCommand, not_lt.2 h]

/-- Witness for the amended C4 at duration 0. -/
theorem splitChapter_nonpositive_duration_omits_t_witness :
    splitChapterSpawns ⟨("copy").toList, ("copy").toList, 192, true, none⟩
      (("in.mp4").toList) (("out.mp4").toList) 0 0 5000 =
      [buildSplitCmdPre ⟨("copy").toList, ("copy").toList, 192, true, none⟩
        (("in.mp4").toList) 0 5000 ++ [("out.mp4").toList]] :=
  splitChapter_nonpositive_duration_omits_t _ _ _ _ _ _ (le_refl 0)

/-- C6: every progress line carrying a chapter-relative offset sets the
global counter to the pre-chapter baseline plus the offset clamped to the
chapter's planned duration, whatever the counter held before. -/
theorem progress_update_clamps_to_duration (elapsedTotal duration pbar0 : ℚ)
    (pre : List (List Char)) (line : List Char) (t : ℚ)
    (h : parseProgressOutput line = some t) :
    List.foldl (progressStep elapsedTotal duration) pbar0 (pre ++ [line]) =
      elapsedTotal + min t duration := by
  rw [List.foldl_append]
  simp [progressStep, h]

/-- Witness for C6: a chapter of planned duration 10 s reporting an offset
of 12 s advances the counter to exactly baseline + 10. -/
theorem progress_update_clamps_to_duration_witness :
    parseProgressOutput (("out_time_ms=12000000").toList) = some 12 ∧
    List.foldl (progressStep 0 10) 0 [("out_time_ms=12000000").toList] =
      0 + min 12 10 ∧
    (0 : ℚ) + min 12 10 = 10 := by
  have h : parseProgressOutput (("out_time_ms=12000000").toList) = some 12 := by
    with_unfolding_all rfl
  refine ⟨h, ?_, by norm_num⟩
  exact progress_update_clamps_to_duration 0 10 0 [] _ 12 h

/-- Helper for C8: the split loop spawns one ffmpeg process per chapter in
index order regardless of exit codes, and records exactly the non-zero
exits as (1-based index, title) failure reports. -/
theorem splitLoop_events_failures (exits : ℕ → Bool)
    (chapters : List (List Char × List Char × List Char)) :
    ∀ i : ℕ,
      (splitLoop exits i chapters).1 =
        (List.enumFrom i chapters).map (fun p => ExtEvent.ffmpegRun p.1) ∧
      (splitLoop exits i chapters).2 =
        (List.enumFrom i chapters).filterMap
          (fun p => if exits p.1 then none else some (p.1 + 1, p.2.2.2)) := by
  induction chapters with
  | nil => intro i; simp [splitLoop]
  | cons ch rest ih =>
    intro i
    have h := ih (i + 1)
    cases hex : exits i <;>
      simp [splitLoop, List.enumFrom, hex, h.1, h.2]

/-- C8: a non-zero exit code on one chapter does not abort the run — on any
run that reaches the chapter loop (non-empty resolved list whose chapter
boundaries all re-parse at the total-duration sum, the condition under
which `split_video` does not raise `ValueError` first), every chapter
still gets its ffmpeg spawn event in order regardless of the exit codes,
and exactly the failed chapters are reported with their 1-based index and
title. -/
theorem splitVideo_nonzero_exit_continues_and_reports (raw : List (List Char))
    (videoDuration : ℚ) (needBitrateProbe : Bool) (exits : ℕ → Bool)
    (h : parseChapterFile raw videoDuration ≠ [])
    (hts : (parseChapterFile raw videoDuration).all
      (fun c => timeParses c.1 && timeParses c.2.1) = true) :
    (splitVideoModel raw videoDuration needBitrateProbe exits).events =
      ExtEvent.durationQuery ::
        ((if needBitrateProbe then [ExtEvent.bitrateQuery] else []) ++
          (List.enumFrom 0 (parseChapterFile raw videoDuration)).map
            (fun p => ExtEvent.ffmpegRun p.1)) ∧
    (splitVideoModel raw videoDuration needBitrateProbe exits).failures =
      (List.enumFrom 0 (parseChapterFile raw videoDuration)).filterMap
        (fun p => if exits p.1 then none else some (p.1 + 1, p.2.2.2)) := by
  have hl := splitLoop_events_failures exits (parseChapterFile raw videoDuration) 0
  simp [splitVideoModel, h, hts, hl.1, hl.2]

/-- Witness for C8: in a concrete 3-chapter run where only chapter 2's
process exits non-zero, all three chapters are spawned in order and the
report names exactly chapter 2 with its title. -/
theorem splitVideo_nonzero_exit_continues_and_reports_witness :
    parseChapterFile [("00:00:00 A").toList, ("00:05:00 B").toList,
        ("00:08:00 C").toList] 600 ≠ [] ∧
    (splitVideoModel [("00:00:00 A").toList, ("00:05:00 B").toList,
        ("00:08:00 C").toList] 600 false (fun i => decide (i ≠ 1))).events =
      [ExtEvent.durationQuery, ExtEvent.ffmpegRun 0, ExtEvent.ffmpegRun 1,
        ExtEvent.ffmpegRun 2] ∧
    (splitVideoModel [("00:00:00 A").toList, ("00:05:00 B").toList,
        ("00:08:00 C").toList] 600 false (fun i => decide (i ≠ 1))).failures =
      [(2, ("B").toList)] := by
  have hch : parseChapterFile [("00:00:00 A").toList, ("00:05:00 B").toList,
      ("00:08:00 C").toList] 600 =
      [(("00:00:00").toList, ("00:05:00").toList, ("A").toList),
        (("00:05:00").toList, ("00:08:00").toList, ("B").toList),
        (("00:08:00").toList, ("00:10:00").toList, ("C").toList)] := by
    with_unfolding_all rfl
  have hne : parseChapterFile [("00:00:00 A").toList, ("00:05:00 B").toList,
      ("00:08:00 C").toList] 600 ≠ [] := by rw [hch]; simp
  have hts : (parseChapterFile [("00:00:00 A").toList, ("00:05:00 B").toList,
      ("00:08:00 C").toList] 600).all
      (fun c => timeParses c.1 && timeParses c.2.1) = true := by
    with_unfolding_all rfl
  have h := splitVideo_nonzero_exit_continues_and_reports
    [("00:00:00 A").toList, ("00:05:00 B").toList, ("00:08:00 C").toList]
    600 false (fun i => decide (i ≠ 1)) hne hts
  refine ⟨hne, ?_, ?_⟩
  · rw [h.1, hch]; decide
  · rw [h.2, hch]; decide

/-- C9: the lenient fallback of timestamp parsing bypasses all range
validation — whenever the strict pattern fails but the stripped input
splits on `:` into exactly three float-parsable parts, the result is
`h*3600 + m*60 + s` with no check on minute/second ranges, signs or
fractional components. -/
theorem timeToSeconds_fallback_skips_validation (s a b c : List Char)
    (hv mv sv : ℚ)
    (h1 : strictMatch (pyStrip s) = none)
    (h2 : splitOnChar ':' (pyStrip s) = [a, b, c])
    (h3 : pyFloatOfStr a = some hv)
    (h4 : pyFloatOfStr b = some mv)
    (h5 : pyFloatOfStr c = some sv) :
    timeToSeconds s = Except.ok (hv * 3600 + mv * 60 + sv) := by
  simp [timeToSeconds, h1, h2, h3, h4, h5]

/-- Witness for C9: `"1.5:99:99"` is accepted with out-of-range minutes and
seconds, and `"-1:02:03"` is accepted with a negative result. -/
theorem timeToSeconds_fallback_skips_validation_witness :
    timeToSeconds (("1.5:99:99").toList) = Except.ok 11439 ∧
    timeToSeconds (("-1:02:03").toList) = Except.ok (-3477) := by
  constructor
  · have h := timeToSeconds_fallback_skips_validation (("1.5:99:99").toList)
      (("1.5").toList) (("99").toList) (("99").toList) (3 / 2) 99 99
      (by with_unfolding_all rfl) (by with_unfolding_all rfl)
      (by with_unfolding_all rfl) (by with_unfolding_all rfl)
      (by with_unfolding_all rfl)
    rw [h]; norm_num
  · have h := timeToSeconds_fallback_skips_validation (("-1:02:03").toList)
      (("-1").toList) (("02").toList) (("03").toList) (-1) 2 3
      (by with_unfolding_all rfl) (by with_unfolding_all rfl)
      (by with_unfolding_all rfl) (by with_unfolding_all rfl)
      (by with_unfolding_all rfl)
    rw [h]; norm_num

/-- Every decimal digit renders as a digit character. -/
theorem digitChar_isDigit (d : ℕ) (h : d < 10) : (digitChar d).isDigit = true := by
  interval_cases d <;> decide

/-- Every character produced by the decimal renderer is a digit. -/
theorem natReprAux_all_digits : ∀ fuel n c, c ∈ natReprAux fuel n → c.isDigit = true := by
  intro fuel
  induction fuel with
  | zero => intro n c hc; simp [natReprAux] at hc
  | succ f ih =>
    intro n c hc
    by_cases h : n < 10
    · simp [natReprAux, h] at hc
      subst hc
      exact digitChar_isDigit n h
    · simp [natReprAux, h] at hc
      rcases hc with hc | hc
      · exact ih _ _ hc
      · subst hc
        exact digitChar_isDigit _ (Nat.mod_lt _ (by norm_num))

/-- The decimal renderer never produces the empty string. -/
theorem natRepr_ne_nil (n : ℕ) : natRepr n ≠ [] := by
  by_cases h : n < 10 <;> simp [natRepr, natReprAux, h]

/-- A rendered number magnitude starts with a digit character. -/
theorem pyNumStrCore_head_digit (x : ℚ) :
    ∃ c cs, pyNumStrCore x = c :: cs ∧ c.isDigit = true := by
  cases hn : natRepr ⌊x⌋.toNat with
  | nil => exact absurd hn (natRepr_ne_nil _)
  | cons c cs =>
    refine ⟨c, cs ++ '.' :: zeroPadTo 3 (natRepr (roundMilli (x - ⌊x⌋)).toNat), ?_, ?_⟩
    · simp [pyNumStrCore, hn]
    · refine natReprAux_all_digits (⌊x⌋.toNat + 1) ⌊x⌋.toNat c ?_
      rw [show natReprAux (⌊x⌋.toNat + 1) ⌊x⌋.toNat = natRepr ⌊x⌋.toNat from rfl, hn]
      simp

/-- A rendered numeric ffmpeg argument is never the literal `-c:v`. -/
theorem pyNumStr_ne_cv (q : ℚ) : pyNumStr q ≠ ['-', 'c', ':', 'v'] := by
  obtain ⟨c, cs, hc, hd⟩ := pyNumStrCore_head_digit q
  obtain ⟨c2, cs2, hc2, hd2⟩ := pyNumStrCore_head_digit (-q)
  intro h
  by_cases hq : q < 0
  · rw [pyNumStr, if_pos hq, hc2] at h
    simp at h
    have h2 : c2 = 'c' := h.1
    rw [h2] at hd2
    exact absurd hd2 (by decide)
  · rw [pyNumStr, if_neg hq, hc] at h
    simp at h
    have h2 : c = '-' := h.1
    rw [h2] at hd
    exact absurd hd (by decide)

/-- C5: with `accurate` set, video mode `copy` and no resolved hardware
encoder, the synthesized command never contains the pair `-c:v copy`; the
video block is the fixed software fallback `libx265` at the fixed quality
target instead. -/
theorem accurate_copy_never_emits_video_copy (cfg : SplitterConfig)
    (inF outF : List Char) (start dur : ℚ) (vb : ℕ)
    (hacc : cfg.accurate = true) (hcopy : cfg.videoCodec = ("copy").toList)
    (hgpu : cfg.gpuEncoder = none) :
    hasAdjPair (("-c:v").toList) (("copy").toList)
      (buildSplitCommand cfg inF outF start dur vb) = false ∧
    videoCodecArgs cfg vb =
      [("-c:v").toList, ("libx265").toList, ("-crf").toList, ("23").toList,
        ("-preset").toList, ("medium").toList] := by
  constructor
  · by_cases haud : cfg.audioCodec = ['c', 'o', 'p', 'y'] <;>
      by_cases hdur : (0 : ℚ) < dur <;>
        simp [buildSplitCommand, buildSplitCmdPre, videoCodecArgs, audioCodecArgs,
          hacc, hcopy, hgpu, haud, hdur, hasAdjPair, pyNumStr_ne_cv]
  · simp [videoCodecArgs, hacc, hcopy, hgpu]

/-- Witness for C5 at a concrete configuration. -/
theorem accurate_copy_never_emits_video_copy_witness :
    hasAdjPair (("-c:v").toList) (("copy").toList)
      (buildSplitCommand ⟨("copy").toList, ("aac").toList, 192, true, none⟩
        (("in.mp4").toList) (("out.mp4").toList) (5 / 2) 10 5000) = false ∧
    videoCodecArgs ⟨("copy").toList, ("aac").toList, 192, true, none⟩ 5000 =
      [("-c:v").toList, ("libx265").toList, ("-crf").toList, ("23").toList,
        ("-preset").toList, ("medium").toList] :=
  accurate_copy_never_emits_video_copy
    ⟨("copy").toList, ("aac").toList, 192, true, none⟩
    (("in.mp4").toList) (("out.mp4").toList) (5 / 2) 10 5000 rfl rfl rfl

/-- A parsed progress offset is never negative (it is a digit string scaled
by a positive constant). -/
theorem parseProgressOutput_nonneg (l : List Char) (t : ℚ)
    (h : parseProgressOutput l = some t) : 0 ≤ t := by
  rw [parseProgressOutput] at h
  split at h
  · split at h
    · split at h
      · rw [Option.some.injEq] at h
        rw [← h]
        positivity
      · exact absurd h (by simp)
    · exact absurd h (by simp)
  · exact absurd h (by simp)

/-- C7 counterexample: nothing in the code enforces monotonicity against
out-of-order progress reports — a chapter whose stream reports 5 s and then
3 s drives the global counter down. -/
theorem runTrace_not_monotone_cex :
    nondec (0 :: runTrace 0 0
      [(10, [("out_time_ms=5000000").toList, ("out_time_ms=3000000").toList])]) =
      false := by
  with_unfolding_all rfl

/-- Invariant of the in-chapter progress loop: starting at or below the
baseline (or at a clamped value of an earlier offset of a non-decreasing
offset stream), the counter trace is non-decreasing and stays at or below
baseline plus duration. -/
theorem chapterTrace_sound : ∀ (lines : List (List Char)) (e d p : ℚ), 0 ≤ d →
    ((p ≤ e ∧ nondec (lines.filterMap parseProgressOutput) = true) ∨
      (∃ t0, 0 ≤ t0 ∧ p = e + min t0 d ∧
        nondec (t0 :: lines.filterMap parseProgressOutput) = true)) →
    nondec (p :: chapterTrace e d p lines) = true ∧ p ≤ e + d ∧
      ∀ x ∈ chapterTrace e d p lines, x ≤ e + d := by
  intro lines
  induction lines with
  | nil =>
    intro e d p hd hinv
    refine ⟨rfl, ?_, by simp [chapterTrace]⟩
    rcases hinv with ⟨hpe, _⟩ | ⟨t0, _, hpeq, _⟩
    · linarith
    · rw [hpeq]
      have := min_le_right t0 d
      linarith
  | cons l ls ih =>
    intro e d p hd hinv
    cases hp : parseProgressOutput l with
    | none =>
      have hstep : progressStep e d p l = p := by simp [progressStep, hp]
      have hinv2 : (p ≤ e ∧ nondec (ls.filterMap parseProgressOutput) = true) ∨
          (∃ t0, 0 ≤ t0 ∧ p = e + min t0 d ∧
            nondec (t0 :: ls.filterMap parseProgressOutput) = true) := by
        rcases hinv with ⟨hpe, hnd⟩ | ⟨t0, ht0, hpeq, hnd⟩
        · exact Or.inl ⟨hpe, by rwa [List.filterMap_cons_none hp] at hnd⟩
        · exact Or.inr ⟨t0, ht0, hpeq, by rwa [List.filterMap_cons_none hp] at hnd⟩
      obtain ⟨hnd2, hpb2, hmem2⟩ := ih e d p hd hinv2
      refine ⟨?_, hpb2, ?_⟩
      · simp only [chapterTrace, hstep, nondec]
        simpa [nondec] using hnd2
      · intro x hx
        simp only [chapterTrace, hstep] at hx
        rw [List.mem_cons] at hx
        rcases hx with hx | hx
        · rw [hx]; exact hpb2
        · exact hmem2 x hx
    | some t =>
      have htn : 0 ≤ t := parseProgressOutput_nonneg l t hp
      have hstep : progressStep e d p l = e + min t d := by simp [progressStep, hp]
      have hple : p ≤ e + min t d := by
        rcases hinv with ⟨hpe, _⟩ | ⟨t0, ht0, hpeq, hnd⟩
        · have : (0 : ℚ) ≤ min t d := le_min htn hd
          linarith
        · rw [List.filterMap_cons_some hp] at hnd
          have ht0t : t0 ≤ t := by
            have := hnd
            simp only [nondec, Bool.and_eq_true, decide_eq_true_eq] at this
            exact this.1
          rw [hpeq]
          have := min_le_min_right d ht0t
          linarith [min_le_min ht0t (le_refl d)]
      have hndtail : nondec (t :: ls.filterMap parseProgressOutput) = true := by
        rcases hinv with ⟨_, hnd⟩ | ⟨t0, _, _, hnd⟩
        · rwa [List.filterMap_cons_some hp] at hnd
        · rw [List.filterMap_cons_some hp] at hnd
          simp only [nondec, Bool.and_eq_true] at hnd
          exact hnd.2
      have hinv2 : ((e + min t d) ≤ e ∧ nondec (ls.filterMap parseProgressOutput) = true) ∨
          (∃ t0, 0 ≤ t0 ∧ (e + min t d) = e + min t0 d ∧
            nondec (t0 :: ls.filterMap parseProgressOutput) = true) :=
        Or.inr ⟨t, htn, rfl, hndtail⟩
      obtain ⟨hnd2, hpb2, hmem2⟩ := ih e d (e + min t d) hd hinv2
      refine ⟨?_, le_trans hple hpb2, ?_⟩
      · simp only [chapterTrace, hstep]
        simp only [nondec, Bool.and_eq_true, decide_eq_true_eq]
        exact ⟨hple, by simpa [nondec] using hnd2⟩
      · intro x hx
        simp only [chapterTrace, hstep] at hx
        rw [List.mem_cons] at hx
        rcases hx with hx | hx
        · rw [hx]; exact hpb2
        · exact hmem2 x hx

/-- Gluing lemma: a non-decreasing trace bounded by `q` extends through a
baseline assignment to `q` followed by another non-decreasing trace. -/
theorem nondec_bridge : ∀ (ct : List ℚ) (p q : ℚ) (tail : List ℚ),
    nondec (p :: ct) = true → (∀ x ∈ ct, x ≤ q) → p ≤ q →
    nondec (q :: tail) = true →
    nondec (p :: ct ++ q :: tail) = true := by
  intro ct
  induction ct with
  | nil =>
    intro p q tail _ _ hpq hq
    simp only [List.nil_append, nondec, Bool.and_eq_true, decide_eq_true_eq]
    exact ⟨hpq, hq⟩
  | cons a ct ih =>
    intro p q tail hnd hmem hpq hq
    simp only [nondec, Bool.and_eq_true, decide_eq_true_eq] at hnd
    simp only [List.cons_append, nondec, Bool.and_eq_true, decide_eq_true_eq]
    refine ⟨hnd.1, ?_⟩
    have := ih a q tail hnd.2 (fun x hx => hmem x (List.mem_cons_of_mem a hx))
      (hmem a (List.mem_cons_self a ct)) hq
    simpa using this

/-- The whole-run induction behind the amended C7. -/
theorem runTrace_monotone_aux : ∀ (chapters : List (ℚ × List (List Char))) (e : ℚ),
    (∀ c ∈ chapters, 0 ≤ c.1 ∧ nondec (c.2.filterMap parseProgressOutput) = true) →
    nondec (e :: runTrace e e chapters) = true := by
  intro chapters
  induction chapters with
  | nil => intro e _; rfl
  | cons ch rest ih =>
    intro e h
    obtain ⟨hd, hnd⟩ := h ch (List.mem_cons_self ch rest)
    obtain ⟨hndc, hpb, hmem⟩ :=
      chapterTrace_sound ch.2 e ch.1 e hd (Or.inl ⟨le_refl e, hnd⟩)
    have hrest := ih (e + ch.1) (fun c hc => h c (List.mem_cons_of_mem ch hc))
    have := nondec_bridge (chapterTrace e ch.1 e ch.2) e (e + ch.1)
      (runTrace (e + ch.1) (e + ch.1) rest) hndc hmem hpb hrest
    simpa [runTrace] using this

/-- C7 amended: the global progress counter is monotonically non-decreasing
across the run provided every chapter has non-negative planned duration and
every chapter's stream of parsed offsets is itself non-decreasing; the code
does not enforce this against decreasing offset reports (see the
counterexample). -/
theorem runTrace_monotone (chapters : List (ℚ × List (List Char)))
    (h : ∀ c ∈ chapters, 0 ≤ c.1 ∧ nondec (c.2.filterMap parseProgressOutput) = true) :
    nondec (0 :: runTrace 0 0 chapters) = true :=
  runTrace_monotone_aux chapters 0 h

/-- Witness for the amended C7 on a concrete well-behaved run. -/
theorem runTrace_monotone_witness :
    (∀ c ∈ [((10 : ℚ), [("out_time_ms=5000000").toList,
        ("out_time_ms=12000000").toList])],
      0 ≤ c.1 ∧ nondec (c.2.filterMap parseProgressOutput) = true) ∧
    nondec (0 :: runTrace 0 0 [((10 : ℚ), [("out_time_ms=5000000").toList,
        ("out_time_ms=12000000").toList])]) = true := by
  have hh : ∀ c ∈ [((10 : ℚ), [("out_time_ms=5000000").toList,
      ("out_time_ms=12000000").toList])],
      0 ≤ c.1 ∧ nondec (c.2.filterMap parseProgressOutput) = true := by
    intro c hc
    rw [List.mem_singleton] at hc
    subst hc
    refine ⟨by norm_num, ?_⟩
    with_unfolding_all rfl
  exact ⟨hh, runTrace_monotone _ hh⟩

theorem digitsVal_foldl_shift : ∀ (l : List Char) (a : ℕ),
    l.foldl (fun a c => 10 * a + charVal c) a = a * 10 ^ l.length + digitsVal l := by
  intro l
  induction l with
  | nil => intro a; simp [digitsVal]
  | cons c l ih =>
    intro a
    simp only [List.foldl_cons, List.length_cons, digitsVal, Nat.mul_zero, Nat.zero_add]
    rw [ih (10 * a + charVal c), ih (charVal c)]
    ring

theorem digitsVal_cons (c : Char) (l : List Char) :
    digitsVal (c :: l) = charVal c * 10 ^ l.length + digitsVal l := by
  have := digitsVal_foldl_shift l (charVal c)
  simpa [digitsVal] using this

theorem digitsVal_append_singleton (l : List Char) (c : Char) :
    digitsVal (l ++ [c]) = 10 * digitsVal l + charVal c := by
  have := digitsVal_foldl_shift [c] (0 : ℕ)
  simp only [digitsVal, List.foldl_append]
  simp [digitsVal]

theorem charVal_digitChar (d : ℕ) (h : d < 10) : charVal (digitChar d) = d := by
  interval_cases d <;> decide

theorem natReprAux_val : ∀ fuel n, n < fuel → digitsVal (natReprAux fuel n) = n := by
  intro fuel
  induction fuel with
  | zero => intro n h; omega
  | succ f ih =>
    intro n h
    by_cases h10 : n < 10
    · simp [natReprAux, h10, digitsVal_cons, charVal_digitChar n h10, digitsVal]
    · have hrec : n / 10 < f := by
        have h1 : n / 10 < n := Nat.div_lt_self (by omega) (by norm_num)
        omega
      simp only [natReprAux, h10, if_false]
      rw [digitsVal_append_singleton, ih _ hrec, charVal_digitChar _ (Nat.mod_lt _ (by norm_num))]
      omega

theorem natRepr_val (n : ℕ) : digitsVal (natRepr n) = n :=
  natReprAux_val (n + 1) n (Nat.lt_succ_self n)

theorem digitsVal_replicate_zero_append (k : ℕ) (l : List Char) :
    digitsVal (List.replicate k '0' ++ l) = digitsVal l := by
  induction k with
  | zero => simp
  | succ j ih =>
    rw [List.replicate_succ, List.cons_append, digitsVal_cons]
    simpa [charVal] using ih

theorem digitsVal_zeroPadTo (w : ℕ) (l : List Char) :
    digitsVal (zeroPadTo w l) = digitsVal l :=
  digitsVal_replicate_zero_append _ l

theorem zeroPadTo_all_digits (w : ℕ) (l : List Char)
    (h : ∀ c ∈ l, c.isDigit = true) : ∀ c ∈ zeroPadTo w l, c.isDigit = true := by
  intro c hc
  rw [zeroPadTo, List.mem_append] at hc
  rcases hc with hc | hc
  · rw [List.eq_of_mem_replicate hc]; decide
  · exact h c hc

theorem natRepr_all_digits (n : ℕ) : ∀ c ∈ natRepr n, c.isDigit = true :=
  fun c hc => natReprAux_all_digits (n + 1) n c hc

theorem zeroPadTo_ne_nil (w : ℕ) (l : List Char) (h : l ≠ []) : zeroPadTo w l ≠ [] := by
  simp [zeroPadTo, h]

theorem zeroPadTo_length (w : ℕ) (l : List Char) (h : l.length ≤ w) :
    (zeroPadTo w l).length = w := by
  simp [zeroPadTo]
  omega

theorem natReprAux_length : ∀ fuel n j, n < fuel → 1 ≤ j → n < 10 ^ j →
    (natReprAux fuel n).length ≤ j := by
  intro fuel
  induction fuel with
  | zero => intro n j h; omega
  | succ f ih =>
    intro n j hf hj hpow
    by_cases h10 : n < 10
    · simp [natReprAux, h10]; omega
    · obtain ⟨jj, rfl⟩ : ∃ jj, j = jj + 1 := ⟨j - 1, by omega⟩
      have hjj : 1 ≤ jj := by
        rcases Nat.lt_or_ge jj 1 with hc | hc
        · interval_cases jj
          · simp at hpow; omega
        · exact hc
      have hrec1 : n / 10 < f := by
        have := Nat.div_lt_self (show 0 < n by omega) (show 1 < 10 by norm_num)
        omega
      have hrec2 : n / 10 < 10 ^ jj := by
        rw [Nat.div_lt_iff_lt_mul (by norm_num)]
        calc n < 10 ^ (jj + 1) := hpow
        _ = 10 ^ jj * 10 := by ring
      have := ih (n / 10) jj hrec1 hjj hrec2
      simp only [natReprAux, h10, if_false, List.length_append, List.length_cons,
        List.length_nil]
      omega

theorem natRepr_length (n j : ℕ) (hj : 1 ≤ j) (h : n < 10 ^ j) :
    (natRepr n).length ≤ j :=
  natReprAux_length (n + 1) n j (Nat.lt_succ_self n) hj h

theorem splitOnChar_ne_nil (sep : Char) (l : List Char) : splitOnChar sep l ≠ [] := by
  cases l with
  | nil => simp [splitOnChar]
  | cons c rest =>
    simp only [splitOnChar]
    rcases h : splitOnChar sep rest with _ | ⟨g, gs⟩
    · simp
    · by_cases hc : c = sep <;> simp [hc]

theorem splitOnChar_no_sep (sep : Char) : ∀ (l : List Char),
    (∀ c ∈ l, c ≠ sep) → splitOnChar sep l = [l] := by
  intro l
  induction l with
  | nil => intro _; rfl
  | cons c rest ih =>
    intro h
    have hc : c ≠ sep := h c (List.mem_cons_self c rest)
    have hr := ih (fun x hx => h x (List.mem_cons_of_mem _ hx))
    simp [splitOnChar, hr, hc]

theorem splitOnChar_append (sep : Char) : ∀ (a rest : List Char),
    (∀ c ∈ a, c ≠ sep) →
    splitOnChar sep (a ++ sep :: rest) = a :: splitOnChar sep rest := by
  intro a
  induction a with
  | nil =>
    intro rest _
    simp only [List.nil_append, splitOnChar]
    rcases h : splitOnChar sep rest with _ | ⟨g, gs⟩
    · exact absurd h (splitOnChar_ne_nil sep rest)
    · simp
  | cons c a ih =>
    intro rest h
    have hc : c ≠ sep := h c (List.mem_cons_self c _)
    have hr := ih rest (fun x hx => h x (List.mem_cons_of_mem _ hx))
    simp only [List.cons_append, splitOnChar, List.append_eq, hr, hc, if_false]

theorem dropWhile_eq_self_of_none (p : Char → Bool) (l : List Char)
    (h : ∀ c ∈ l, p c = false) : l.dropWhile p = l := by
  cases l with
  | nil => rfl
  | cons c rest => simp [List.dropWhile_cons, h c (List.mem_cons_self c rest)]

theorem pyStrip_eq_self (l : List Char) (h : ∀ c ∈ l, isWs c = false) :
    pyStrip l = l := by
  rw [pyStrip, dropWhile_eq_self_of_none _ _ h,
    dropWhile_eq_self_of_none _ _ (fun c hc => h c (List.mem_reverse.mp hc)),
    List.reverse_reverse]

theorem takeWhile_append_stop (p : Char → Bool) : ∀ (l1 : List Char) (x : Char) (l2 : List Char),
    (∀ c ∈ l1, p c = true) → p x = false →
    (l1 ++ x :: l2).takeWhile p = l1 ∧ (l1 ++ x :: l2).dropWhile p = x :: l2 := by
  intro l1
  induction l1 with
  | nil => intro x l2 _ hx; simp [List.takeWhile_cons, List.dropWhile_cons, hx]
  | cons c l1 ih =>
    intro x l2 h hx
    have hc : p c = true := h c (List.mem_cons_self c l1)
    have hr := ih x l2 (fun a ha => h a (List.mem_cons_of_mem _ ha)) hx
    simp [List.takeWhile_cons, List.dropWhile_cons, hc, hr.1, hr.2]

theorem floor_natCast_div (k n : ℕ) (hn : 0 < n) :
    ⌊(k : ℚ) / (n : ℚ)⌋ = ((k / n : ℕ) : ℤ) := by
  rw [Int.floor_eq_iff]
  constructor
  · rw [le_div_iff₀ (by positivity)]
    push_cast
    exact_mod_cast Nat.div_mul_le_self k n
  · rw [div_lt_iff₀ (by positivity)]
    have h1 := Nat.div_add_mod k n
    have h2 := Nat.mod_lt k hn
    have h3 : k < (k / n + 1) * n := by
      calc k = n * (k / n) + k % n := h1.symm
      _ < n * (k / n) + n := by omega
      _ = (k / n + 1) * n := by ring
    push_cast
    exact_mod_cast h3

theorem floor_hours (k : ℕ) : ⌊(k : ℚ) / 1000 / 3600⌋ = ((k / 3600000 : ℕ) : ℤ) := by
  rw [div_div]
  have := floor_natCast_div k 3600000 (by norm_num)
  norm_num at this ⊢
  exact this

theorem pyMod_3600 (k : ℕ) :
    pyMod ((k : ℚ) / 1000) 3600 = ((k % 3600000 : ℕ) : ℚ) / 1000 := by
  rw [pyMod, floor_hours]
  have h1 : 3600000 * (k / 3600000) + k % 3600000 = k := Nat.div_add_mod k 3600000
  have h2 : (3600000 : ℚ) * ((k / 3600000 : ℕ) : ℚ) + ((k % 3600000 : ℕ) : ℚ) = (k : ℚ) := by
    exact_mod_cast h1
  have hc : (((k / 3600000 : ℕ) : ℤ) : ℚ) = ((k / 3600000 : ℕ) : ℚ) := by norm_cast
  rw [hc]
  linarith

theorem floor_x_60 (k : ℕ) : ⌊(k : ℚ) / 1000 / 60⌋ = ((k / 60000 : ℕ) : ℤ) := by
  rw [div_div]
  have := floor_natCast_div k 60000 (by norm_num)
  norm_num at this ⊢
  exact this

theorem pyMod_60 (k : ℕ) :
    pyMod ((k : ℚ) / 1000) 60 = ((k % 60000 : ℕ) : ℚ) / 1000 := by
  rw [pyMod, floor_x_60]
  have h1 : 60000 * (k / 60000) + k % 60000 = k := Nat.div_add_mod k 60000
  have h2 : (60000 : ℚ) * ((k / 60000 : ℕ) : ℚ) + ((k % 60000 : ℕ) : ℚ) = (k : ℚ) := by
    exact_mod_cast h1
  have hc : (((k / 60000 : ℕ) : ℤ) : ℚ) = ((k / 60000 : ℕ) : ℚ) := by norm_cast
  rw [hc]
  linarith

theorem floor_minutes (k : ℕ) :
    ⌊pyMod ((k : ℚ) / 1000) 3600 / 60⌋ = ((k % 3600000 / 60000 : ℕ) : ℤ) := by
  rw [pyMod_3600]
  exact floor_x_60 (k % 3600000)

theorem roundMilli_div1000 (n : ℕ) : roundMilli ((n : ℚ) / 1000) = (n : ℤ) := by
  have h : (n : ℚ) / 1000 * 1000 + 1 / 2 = (n : ℚ) + 1 / 2 := by
    rw [div_mul_cancel₀]
    norm_num
  rw [roundMilli, h]
  rw [Int.floor_eq_iff (α := ℚ) (z := (n : ℤ))]
  constructor
  · push_cast
    linarith
  · push_cast
    linarith

theorem zeroPadTo_append_fixed (w n : ℕ) (l1 l2 : List Char) (h : l2.length = n) :
    zeroPadTo (w + n) (l1 ++ l2) = zeroPadTo w l1 ++ l2 := by
  rw [zeroPadTo, zeroPadTo, List.length_append, h]
  rw [show w + n - (l1.length + n) = w - l1.length by omega]
  rw [List.append_assoc]

theorem pyFmtD_natCast (w : ℕ) (n : ℕ) :
    pyFmtD w ((n : ℕ) : ℤ) = zeroPadTo w (natRepr n) := by
  rw [pyFmtD, if_neg (by omega), Int.natAbs_ofNat]

theorem digit_not_ws (c : Char) (h : c.isDigit = true) : isWs c = false := by
  cases hw : isWs c
  · rfl
  · exfalso
    simp only [isWs, Bool.or_eq_true, decide_eq_true_eq] at hw
    rcases hw with ((hw | hw) | hw) | hw <;> subst hw <;> exact absurd h (by decide)

theorem digit_ne_colon (c : Char) (h : c.isDigit = true) : c ≠ ':' := by
  intro hh
  rw [hh] at h
  exact absurd h (by decide)

theorem secondsToTimeStr_ms_decomp (k : ℕ) :
    secondsToTimeStr ((k : ℚ) / 1000) true =
      zeroPadTo 2 (natRepr (k / 3600000)) ++ ':' ::
      (zeroPadTo 2 (natRepr (k % 3600000 / 60000)) ++ ':' ::
      (zeroPadTo 2 (natRepr (k % 60000 / 1000)) ++ '.' ::
        zeroPadTo 3 (natRepr (k % 1000)))) := by
  have hlen3 : (natRepr (k % 1000)).length ≤ 3 :=
    natRepr_length (k % 1000) 3 (by norm_num) (by omega)
  have hlen : ('.' :: zeroPadTo 3 (natRepr (k % 1000))).length = 4 := by
    simp [zeroPadTo_length 3 _ hlen3]
  simp only [secondsToTimeStr, if_true]
  rw [floor_hours, floor_minutes, pyMod_60, pyFmtD_natCast, pyFmtD_natCast]
  rw [pyFmtF63, if_neg (by rw [not_lt]; positivity)]
  simp only [pyFmtF63core]
  rw [roundMilli_div1000, Int.toNat_natCast]
  rw [Nat.mod_mod_of_dvd k (by norm_num : (1000 : ℕ) ∣ 60000)]
  rw [show (6 : ℕ) = 2 + 4 from rfl,
    zeroPadTo_append_fixed 2 4 (natRepr (k % 60000 / 1000)) _ hlen]
  simp

/-- C2 amended: for every whole number of milliseconds k with k/1000 in
[0, 359999], formatting with fractional output and re-parsing recovers the
value exactly (and does not raise); arbitrary rationals whose seconds field
rounds up to 60.000 are excluded (see the counterexample). -/
theorem timeToSeconds_roundTrip_ms (k : ℕ) (_hk : k ≤ 359999000) :
    timeToSeconds (secondsToTimeStr ((k : ℚ) / 1000) true) =
      Except.ok ((k : ℚ) / 1000) := by
  rw [secondsToTimeStr_ms_decomp]
  set A := zeroPadTo 2 (natRepr (k / 3600000)) with hA
  set B := zeroPadTo 2 (natRepr (k % 3600000 / 60000)) with hB
  set SP := zeroPadTo 2 (natRepr (k % 60000 / 1000)) with hSP
  set F := zeroPadTo 3 (natRepr (k % 1000)) with hF
  have hAd : ∀ c ∈ A, c.isDigit = true := zeroPadTo_all_digits _ _ (natRepr_all_digits _)
  have hBd : ∀ c ∈ B, c.isDigit = true := zeroPadTo_all_digits _ _ (natRepr_all_digits _)
  have hSPd : ∀ c ∈ SP, c.isDigit = true := zeroPadTo_all_digits _ _ (natRepr_all_digits _)
  have hFd : ∀ c ∈ F, c.isDigit = true := zeroPadTo_all_digits _ _ (natRepr_all_digits _)
  have hAne : A ≠ [] := zeroPadTo_ne_nil _ _ (natRepr_ne_nil _)
  have hBne : B ≠ [] := zeroPadTo_ne_nil _ _ (natRepr_ne_nil _)
  have hSPne : SP ≠ [] := zeroPadTo_ne_nil _ _ (natRepr_ne_nil _)
  have hFne : F ≠ [] := zeroPadTo_ne_nil _ _ (natRepr_ne_nil _)
  have hFlen : F.length = 3 :=
    zeroPadTo_length 3 _ (natRepr_length (k % 1000) 3 (by norm_num) (by omega))
  have hws : ∀ c ∈ A ++ ':' :: (B ++ ':' :: (SP ++ '.' :: F)), isWs c = false := by
    intro c hc
    simp only [List.mem_append, List.mem_cons] at hc
    rcases hc with hc | hc | hc | hc | hc | hc | hc
    · exact digit_not_ws c (hAd c hc)
    · rw [hc]; decide
    · exact digit_not_ws c (hBd c hc)
    · rw [hc]; decide
    · exact digit_not_ws c (hSPd c hc)
    · rw [hc]; decide
    · exact digit_not_ws c (hFd c hc)
  have hSno : ∀ c ∈ SP ++ '.' :: F, c ≠ ':' := by
    intro c hc
    simp only [List.mem_append, List.mem_cons] at hc
    rcases hc with hc | hc | hc
    · exact digit_ne_colon c (hSPd c hc)
    · rw [hc]; decide
    · exact digit_ne_colon c (hFd c hc)
  have hsplit : splitOnChar ':' (A ++ ':' :: (B ++ ':' :: (SP ++ '.' :: F))) =
      [A, B, SP ++ '.' :: F] := by
    rw [splitOnChar_append ':' A _ (fun c hc => digit_ne_colon c (hAd c hc))]
    rw [splitOnChar_append ':' B _ (fun c hc => digit_ne_colon c (hBd c hc))]
    rw [splitOnChar_no_sep ':' _ hSno]
  have hTW := takeWhile_append_stop Char.isDigit SP '.' F hSPd (by decide)
  have hsec_match : secGroupMatch (SP ++ '.' :: F) = true := by
    simp only [secGroupMatch, hTW.1, hTW.2]
    simp [hSPne, isDigitStr, hFne, List.all_eq_true.mpr hFd]
  have hsec_val : secGroupVal (SP ++ '.' :: F) =
      ((k % 60000 / 1000 : ℕ) : ℚ) + ((k % 1000 : ℕ) : ℚ) / 1000 := by
    simp only [secGroupVal, hTW.1, hTW.2, if_pos rfl]
    rw [hSP, hF, digitsVal_zeroPadTo, digitsVal_zeroPadTo, natRepr_val, natRepr_val, hFlen]
    norm_num
  have hsm : strictMatch (A ++ ':' :: (B ++ ':' :: (SP ++ '.' :: F))) =
      some (((k / 3600000 : ℕ) : ℚ), ((k % 3600000 / 60000 : ℕ) : ℚ),
        ((k % 60000 / 1000 : ℕ) : ℚ) + ((k % 1000 : ℕ) : ℚ) / 1000) := by
    rw [strictMatch, hsplit]
    simp only [isDigitStr, hsec_match, hsec_val]
    rw [if_pos]
    · rw [hA, hB, digitsVal_zeroPadTo, digitsVal_zeroPadTo, natRepr_val, natRepr_val]
    · simp [hAne, hBne, List.all_eq_true.mpr hAd, List.all_eq_true.mpr hBd]
  have hstrip := pyStrip_eq_self _ hws
  have hm60 : ¬(60 ≤ ((k % 3600000 / 60000 : ℕ) : ℚ)) := by
    rw [not_le]
    exact_mod_cast (show k % 3600000 / 60000 < 60 by omega)
  have hs60 : ¬(60 ≤ ((k % 60000 / 1000 : ℕ) : ℚ) + ((k % 1000 : ℕ) : ℚ) / 1000) := by
    rw [not_le]
    have h1 : ((k % 60000 / 1000 : ℕ) : ℚ) ≤ 59 :=
      by exact_mod_cast (show k % 60000 / 1000 ≤ 59 by omega)
    have h2 : ((k % 1000 : ℕ) : ℚ) ≤ 999 :=
      by exact_mod_cast (show k % 1000 ≤ 999 by omega)
    linarith
  rw [timeToSeconds]
  simp only [hstrip, hsm]
  rw [if_neg hm60, if_neg hs60]
  congr 1
  have hnat : 3600000 * (k / 3600000) + 60000 * (k % 3600000 / 60000) +
      1000 * (k % 60000 / 1000) + k % 1000 = k := by omega
  have hq : (3600000 : ℚ) * ((k / 3600000 : ℕ) : ℚ) +
      60000 * ((k % 3600000 / 60000 : ℕ) : ℚ) +
      1000 * ((k % 60000 / 1000 : ℕ) : ℚ) + ((k % 1000 : ℕ) : ℚ) = (k : ℚ) := by
    exact_mod_cast hnat
  linarith

/-- C2 counterexample: at x = 59.9999 s (within [0, 359999]) the formatter
rounds the seconds field up to "60.000", and re-parsing that string raises
the out-of-range-seconds error instead of recovering x. -/
theorem timeToSeconds_roundTrip_raises_cex :
    (0 : ℚ) ≤ 599999 / 10000 ∧ (599999 : ℚ) / 10000 ≤ 359999 ∧
    timeToSeconds (secondsToTimeStr ((599999 : ℚ) / 10000) true) =
      Except.error TimeErr.badSeconds := by
  refine ⟨by norm_num, by norm_num, ?_⟩
  with_unfolding_all rfl

/-- Witness for the amended C2 at 5025.678 s (= 01:23:45.678). -/
theorem timeToSeconds_roundTrip_ms_witness :
    (5025678 : ℕ) ≤ 359999000 ∧
    timeToSeconds (secondsToTimeStr (((5025678 : ℕ) : ℚ) / 1000) true) =
      Except.ok (((5025678 : ℕ) : ℚ) / 1000) :=
  ⟨by norm_num, timeToSeconds_roundTrip_ms 5025678 (by norm_num)⟩


end VCS
